import Mathlib

/-!
Shallow embedding of the musiclist repository's scraping / reconciliation core,
with theorems settling the frozen claims C1..C10.

Sources embedded (translated from the Python under src/):
  * src/scrapers/base.py        — BaseScraper.parse_time_ampm, clean_artist_names, fetch_page
  * src/scrapers/brick_mortar.py — BrickMortarScraper._extract_date, _parse_single_event, parse_events
  * src/scrapers/neck_woods.py  — NeckOfTheWoodsScraper._parse_single_event, parse_events
  * src/storage/database.py     — Database.save_events, get_venue_id
  * src/music_calendar.py       — CalendarDisplay.get_current_and_next_month_range,
                                  filter_events_by_date, scrape_venue

Machine-level conventions: Python `datetime.date` values are modelled as
`PyDate` triples ordered lexicographically (matching Python's date ordering);
`datetime.time` values as hour/minute pairs; SQLite rows as Lean structures.
Strings are modelled over their ASCII content (the normalization utilities in
the source only special-case ASCII characters plus the two curly quotes).
-/

namespace Musiclist

/-- Python `datetime.date`: a (year, month, day) triple.  Python orders dates
lexicographically by (year, month, day), which `dateLe`/`dateLt` mirror. -/
structure PyDate where
  year : Nat
  month : Nat
  day : Nat
deriving DecidableEq, Repr

/-- Python `date` comparison `a <= b` (lexicographic on year, month, day). -/
def dateLe (a b : PyDate) : Bool :=
  a.year < b.year ∨ (a.year = b.year ∧
    (a.month < b.month ∨ (a.month = b.month ∧ a.day ≤ b.day)))

/-- Python `date` comparison `a < b` (lexicographic on year, month, day). -/
def dateLt (a b : PyDate) : Bool :=
  a.year < b.year ∨ (a.year = b.year ∧
    (a.month < b.month ∨ (a.month = b.month ∧ a.day < b.day)))

/-- Gregorian leap-year test, as used by Python's `datetime.date` validation. -/
def isLeap (y : Nat) : Bool :=
  y % 4 = 0 ∧ (y % 100 ≠ 0 ∨ y % 400 = 0)

/-- Number of days in a month, as used by Python's `datetime.date` validation. -/
def daysInMonth (y m : Nat) : Nat :=
  if m = 2 then (if isLeap y then 29 else 28)
  else if m = 4 ∨ m = 6 ∨ m = 9 ∨ m = 11 then 30
  else 31

/-- Python `date(y, m, d)`: `some` when the triple is a valid calendar date,
`none` when the constructor would raise `ValueError`. -/
def mkDate (y m d : Int) : Option PyDate :=
  if 1 ≤ m ∧ m ≤ 12 ∧ 1 ≤ d ∧ 1 ≤ y ∧ d ≤ (daysInMonth y.toNat m.toNat : Int) then
    some ⟨y.toNat, m.toNat, d.toNat⟩
  else none

/-- Candidate/stored event record.  Modelled from the spec: the `Event` data
model (`models.py`) is not included in the snapshot; §3 of the spec gives its
fields — date (required), optional time, artists (persisted as one normalized
display string, which `Database.save_events` reads via `artists_display`),
venue name, source URL, optional cost, pinned flag.  Dates and times are kept
as structured values; `save_events` persists them via `isoformat()`, which is
injective, so equality of the structured values coincides with equality of the
stored TEXT. -/
structure Event where
  venue : String
  date : PyDate
  time : Option (Nat × Nat)
  artists_display : String
  url : String
  cost : Option String
  pinned : Bool
deriving DecidableEq, Repr

/-! ## Calendar window and date filtering (src/music_calendar.py) -/

/-- `today.replace(day=1)` — first day of `today`'s month. -/
def firstOfMonth (t : PyDate) : PyDate := ⟨t.year, t.month, 1⟩

/-- `d + relativedelta(months=k)` for a day-1 date: advance the month with
year carry.  (relativedelta would clamp the day to the month's end, but the
source only applies it to day-1 dates, where no clamping occurs.) -/
def addMonths (d : PyDate) (k : Nat) : PyDate :=
  let m0 := d.month - 1 + k
  ⟨d.year + m0 / 12, m0 % 12 + 1, d.day⟩

/-- `CalendarDisplay.get_current_and_next_month_range` (src/music_calendar.py
lines 19-26): returns (first day of current month, first day of the month
after next). -/
def get_current_and_next_month_range (today : PyDate) : PyDate × PyDate :=
  let current_month_start := firstOfMonth today
  let next_next_month_start := addMonths current_month_start 2
  (current_month_start, next_next_month_start)

/-- `CalendarDisplay.filter_events_by_date` (src/music_calendar.py lines
28-37): keep events with `event.date >= today and start <= event.date < end`. -/
def filter_events_by_date (today : PyDate) (events : List Event) : List Event :=
  let r := get_current_and_next_month_range today
  events.filter (fun e => dateLe today e.date ∧ dateLe r.1 e.date ∧ dateLt e.date r.2)

/-! ## Brick & Mortar date extraction (src/scrapers/brick_mortar.py) -/

/-- One decimal digit's value. -/
def dv (c : Char) : Nat := c.toNat - 48

/-- Digit run of a Python `int()` literal: one or more decimal digits with
optional single `_` separators between digits (PEP 515). -/
def pyDigitsGo (acc : Nat) : List Char → Option Nat
  | [] => some acc
  | '_' :: d :: r => if d.isDigit then pyDigitsGo (acc * 10 + dv d) r else none
  | d :: r => if d.isDigit then pyDigitsGo (acc * 10 + dv d) r else none

/-- Parse a nonempty digit run (with optional `_` separators). -/
def pyDigits : List Char → Option Nat
  | [] => none
  | c :: r => if c.isDigit then pyDigitsGo (dv c) r else none

/-- Python whitespace characters recognised by `int()` / `str.strip()`
(ASCII fragment). -/
def isPySpace (c : Char) : Bool :=
  c = ' ' ∨ c = '\t' ∨ c = '\n' ∨ c = '\r' ∨ c = '\x0b' ∨ c = '\x0c'

/-- Python `int(s)` on a character list: optional surrounding whitespace,
optional sign, digits.  `none` models `ValueError`. -/
def pyInt (s : List Char) : Option Int :=
  let l := (s.dropWhile isPySpace).reverse.dropWhile isPySpace |>.reverse
  match l with
  | '-' :: r => (pyDigits r).map (fun n => -(n : Int))
  | '+' :: r => (pyDigits r).map (fun n => (n : Int))
  | r => (pyDigits r).map (fun n => (n : Int))

/-- Substring containment (`needle in haystack` on Python strings). -/
def hasSub (needle : List Char) : List Char → Bool
  | [] => needle.isPrefixOf []
  | c :: r => needle.isPrefixOf (c :: r) || hasSub needle r

/-- Python `str.split(sep)` for a one-character separator: split at every
occurrence, keeping empty pieces. -/
def splitOnChar (sep : Char) : List Char → List (List Char)
  | [] => [[]]
  | c :: r =>
    if c = sep then [] :: splitOnChar sep r
    else
      match splitOnChar sep r with
      | [] => [[c]]
      | g :: gs => (c :: g) :: gs

/-- `BrickMortarScraper._extract_date` (src/scrapers/brick_mortar.py lines
62-91), from the date text onward: split "month.day" on the dot, parse both
ints, resolve the year as current year + 1 exactly when the parsed month is
numerically smaller than the current month, and build the date.  Any
`ValueError` (from unpacking a split with more than two parts, from `int()`,
or from `date()`) yields `None`. -/
def extract_date (currentYear currentMonth : Nat) (dateText : String) : Option PyDate :=
  if hasSub ['.'] dateText.data then
    match splitOnChar '.' dateText.data with
    | [monthStr, dayStr] =>
      match pyInt monthStr, pyInt dayStr with
      | some month, some day =>
        let year : Int :=
          if month < (currentMonth : Int) then (currentYear : Int) + 1
          else (currentYear : Int)
        mkDate year month day
      | _, _ => none
    | _ => none
  else none

/-! ## AM/PM time parsing (src/scrapers/base.py, BaseScraper.parse_time_ampm)

The source applies `re.search` with the pattern `(\d{1,2}):?(\d{2})?\s*(pm|am)`
under `re.IGNORECASE`.  The matcher below reproduces Python's leftmost scan
with greedy groups and backtracking: at each start position, the hour group
first tries two digits then one; the optional colon and the optional
two-digit minute group each try the consuming alternative first; `\s*` is
greedy (no backtracking is ever needed through it since `p`/`a` are not
whitespace). -/

/-- Match the alternation `(pm|am)` case-insensitively at the head of the
text; `some true` for pm, `some false` for am. -/
def matchAmPm : List Char → Option Bool
  | c1 :: c2 :: _ =>
    if (c1 = 'p' ∨ c1 = 'P') ∧ (c2 = 'm' ∨ c2 = 'M') then some true
    else if (c1 = 'a' ∨ c1 = 'A') ∧ (c2 = 'm' ∨ c2 = 'M') then some false
    else none
  | _ => none

/-- Match `(\d{2})?\s*(pm|am)`: greedy optional two-digit minutes (tried
first, with backtracking to the empty group on failure), then whitespace,
then the marker.  Returns (minutes group, pm?). -/
def matchMinAmPm : List Char → Option (Option Nat × Bool)
  | d1 :: d2 :: rest =>
    if d1.isDigit ∧ d2.isDigit then
      match matchAmPm (rest.dropWhile isPySpace) with
      | some ap => some (some (10 * dv d1 + dv d2), ap)
      | none =>
        match matchAmPm ((d1 :: d2 :: rest).dropWhile isPySpace) with
        | some ap => some (none, ap)
        | none => none
    else
      match matchAmPm ((d1 :: d2 :: rest).dropWhile isPySpace) with
      | some ap => some (none, ap)
      | none => none
  | l =>
    match matchAmPm (l.dropWhile isPySpace) with
    | some ap => some (none, ap)
    | none => none

/-- Match `:?(\d{2})?\s*(pm|am)`: greedy optional colon (consuming
alternative tried first, with backtracking), then the rest. -/
def matchColonMinAmPm : List Char → Option (Option Nat × Bool)
  | ':' :: rest =>
    (match matchMinAmPm rest with
     | some r => some r
     | none => matchMinAmPm (':' :: rest))
  | l => matchMinAmPm l

/-- Match the full pattern anchored at the current position: greedy 1-2 digit
hour, then `:?(\d{2})?\s*(pm|am)`.  Returns (hour, minutes group, pm?). -/
def matchAt : List Char → Option (Nat × Option Nat × Bool)
  | [] => none
  | d1 :: rest =>
    if d1.isDigit then
      match rest with
      | d2 :: rest2 =>
        if d2.isDigit then
          match (matchColonMinAmPm rest2).map (fun r => (10 * dv d1 + dv d2, r)) with
          | some r => some r
          | none => (matchColonMinAmPm rest).map (fun r => (dv d1, r))
        else (matchColonMinAmPm rest).map (fun r => (dv d1, r))
      | [] => none
    else none

/-- `re.search`: scan start positions left to right, returning the first
position's match. -/
def searchTime : List Char → Option (Nat × Option Nat × Bool)
  | [] => none
  | c :: rest =>
    match matchAt (c :: rest) with
    | some r => some r
    | none => searchTime rest

/-- `BaseScraper.parse_time_ampm` (src/scrapers/base.py lines 68-88): regex
search as above, minutes defaulting to 0, 12-hour→24-hour conversion
(pm with hour ≠ 12 adds 12, 12am → 0), and `datetime.time(hour, minute)`
validation — a `ValueError` (hour > 23 or minute > 59) is caught and yields
`none`, as does a failed search. -/
def parse_time_ampm (timeText : String) : Option (Nat × Nat) :=
  match searchTime timeText.data with
  | none => none
  | some (h, mins, isPm) =>
    let minute := mins.getD 0
    let hour := if isPm ∧ h ≠ 12 then h + 12 else if ¬isPm ∧ h = 12 then 0 else h
    if hour ≤ 23 ∧ minute ≤ 59 then some (hour, minute) else none

/-- Does the text contain an am/pm marker (the two-letter sequence `am` or
`pm`, case-insensitively) anywhere? -/
def hasAmPmMarker : List Char → Bool
  | [] => false
  | c :: rest => (matchAmPm (c :: rest)).isSome || hasAmPmMarker rest

/-! ## Artist-name cleanup (src/scrapers/base.py, BaseScraper.clean_artist_names) -/

/-- Is the character one of the quote characters in the source's character
class (straight double quote and the two curly double quotes)? -/
def isQuoteChar (c : Char) : Bool := c = '"' ∨ c = '“' ∨ c = '”'

/-- For the non-greedy `.*?` between two quote characters: find the next
quote character before any newline (`.` does not match a newline) and return
the remainder after it. -/
def dropToQuote : List Char → Option (List Char)
  | [] => none
  | c :: r =>
    if isQuoteChar c then some r
    else if c = '\n' then none
    else dropToQuote r

/-- Scan for `removeQuoted`, structurally recursive on a fuel argument
(`dropToQuote` shortens the remainder, so fuel = input length suffices). -/
def removeQuotedGo : Nat → List Char → List Char
  | 0, l => l
  | _ + 1, [] => []
  | fuel + 1, c :: rest =>
    if isQuoteChar c then
      match dropToQuote rest with
      | some rest2 => removeQuotedGo fuel rest2
      | none => c :: rest
    else c :: removeQuotedGo fuel rest

/-- `re.sub(r'["""].*?["""]', "", text)`: repeatedly delete the shortest
span from a quote character to the next quote character on the same line;
an unmatched opening quote is left in place. -/
def removeQuoted (l : List Char) : List Char := removeQuotedGo l.length l

/-- Split a string into (everything up to and including the last newline,
the final line). -/
def lastLineSplit (l : List Char) : List Char × List Char :=
  let zone := (l.reverse.takeWhile (fun c => ¬ c = '\n')).reverse
  (l.take (l.length - zone.length), zone)

/-- Peel one trailing newline (Python's `$` also matches just before a
newline at the very end of the string). -/
def peelTrailingNl (l : List Char) : List Char × List Char :=
  match l.reverse with
  | '\n' :: body => (body.reverse, ['\n'])
  | _ => (l, [])

/-- `re.sub(r"—.*$", "", text)`: delete from the first em-dash that is
followed only by non-newline characters up to the end (or up to a single
trailing newline) — i.e. the first em-dash on the final line. -/
def removeEmDash (l : List Char) : List Char :=
  let p := peelTrailingNl l
  let z := lastLineSplit p.1
  z.1 ++ z.2.takeWhile (fun c => ¬ c = '—') ++ p.2

/-- Does the character list contain "tour" (lowercase, as the source's
`re.IGNORECASE` flag is mistakenly passed as the `count` argument of
`re.sub`, so the pattern stays case-sensitive)? -/
def containsTour : List Char → Bool
  | 't' :: 'o' :: 'u' :: 'r' :: _ => true
  | _ :: r => containsTour r
  | [] => false

/-- Delete from the first `-` that has "tour" somewhere after it, to the end
of the line. -/
def tourStrip : List Char → List Char
  | [] => []
  | c :: rest =>
    if c = '-' ∧ containsTour rest then []
    else c :: tourStrip rest

/-- `re.sub(r"-.*tour.*$", "", text, re.IGNORECASE)`: the third argument
slot is `count`, so the pattern is case-sensitive and applied at most twice —
but a match always extends to the end of the final line, so at most one
substitution can ever occur and the count limit is immaterial.  Deletes from
the first `-` on the final line that has "tour" after it. -/
def removeTour (l : List Char) : List Char :=
  let p := peelTrailingNl l
  let z := lastLineSplit p.1
  z.1 ++ tourStrip z.2 ++ p.2

/-- Python `str.strip()`: drop leading and trailing whitespace. -/
def pyStrip (l : List Char) : List Char :=
  ((l.dropWhile isPySpace).reverse.dropWhile isPySpace).reverse

/-- Python `str.upper()` on one character (ASCII fragment). -/
def pyUpperChar (c : Char) : Char :=
  if 'a' ≤ c ∧ c ≤ 'z' then Char.ofNat (c.toNat - 32) else c

/-- Python `str.upper()` (ASCII fragment). -/
def pyUpper (l : List Char) : List Char := l.map pyUpperChar

/-- Python `text.split(sep)` for the separators the source uses (`,`, `&`,
" AND ", " WITH ", ", "): split at every non-overlapping occurrence of the
separator, scanning left to right. -/
def splitOnSubGo (sep : List Char) : Nat → List Char → List (List Char)
  | 0, l => [l]
  | _ + 1, [] => [[]]
  | fuel + 1, c :: r =>
    if ¬ sep.isEmpty ∧ sep.isPrefixOf (c :: r) then
      [] :: splitOnSubGo sep fuel ((c :: r).drop sep.length)
    else
      match splitOnSubGo sep fuel r with
      | [] => [[c]]
      | g :: gs => (c :: g) :: gs

/-- The split itself, with fuel = input length (each step consumes at least
one character; the source's separators are all non-empty, and Python raises
on an empty separator, which therefore never occurs). -/
def splitOnSub (sep : List Char) (l : List Char) : List (List Char) :=
  splitOnSubGo sep l.length l

/-- The text-cleanup stage of `clean_artist_names`: remove quoted spans,
em-dash suffix, "-...tour..." suffix, then strip whitespace. -/
def cleanedText (artist_text : String) : List Char :=
  pyStrip (removeTour (removeEmDash (removeQuoted artist_text.data)))

/-- The separators tried, in source order: `,`, `&`, " AND ", " WITH ", ", "
(the last is unreachable, as any text containing ", " contains ","). -/
def artistSeps : List (List Char) :=
  [[','], ['&'], [' ', 'A', 'N', 'D', ' '], [' ', 'W', 'I', 'T', 'H', ' '], [',', ' ']]

/-- The split-and-normalize stage of `clean_artist_names`: split on the
first separator that occurs in the text, strip each part, keep the parts
whose stripped form is non-empty, uppercase them; with no separator present,
return the single uppercased text. -/
def splitArtists (t : List Char) : List String :=
  match artistSeps.find? (fun sep => hasSub sep t) with
  | some sep =>
    ((((splitOnSub sep t).map pyStrip).filter (fun p => ¬ pyStrip p = [])).map
      (fun p => String.mk (pyUpper p)))
  | none => [String.mk (pyUpper t)]

/-- `BaseScraper.clean_artist_names` (src/scrapers/base.py lines 120-146):
empty input gives no artists; otherwise clean the text, return nothing if it
stripped to empty, else split and normalize. -/
def clean_artist_names (artist_text : String) : List String :=
  if artist_text = "" then []
  else
    if cleanedText artist_text = [] then []
    else splitArtists (cleanedText artist_text)

/-! ## Cache-vs-scrape decision (src/music_calendar.py, CalendarDisplay.scrape_venue) -/

/-- Modelled from the spec: `Database.is_venue_data_fresh` is not present in
the snapshot (only its caller in src/music_calendar.py is).  Per the spec, a
venue's data is fresh when its last-scraped timestamp exists and lies within
the freshness window (`cache_hours`); a venue scraped 1 hour ago with a
24-hour window is fresh, one scraped 25 hours ago is stale.  Times are in
hours. -/
def is_venue_data_fresh (nowHours : Nat) (lastScraped : Option Nat)
    (cacheHours : Nat) : Bool :=
  match lastScraped with
  | none => false
  | some t => nowHours - t < cacheHours

/-- `CalendarDisplay.scrape_venue` (src/music_calendar.py lines 39-74),
abstracted over its collaborators: `scraped` is what `scraper.get_events()`
would return and `cachedStored` what `Database.get_cached_events_for_venue`
(absent from the snapshot; per the spec it returns the venue's stored
events) would return.  Result: the returned event list, paired with whether
a fetch+parse was performed.  With fresh data and no forced refresh, the
stored events are filtered and returned without scraping; otherwise the
venue is scraped, the scraped events (if any) are saved and filtered, and an
empty scrape falls back to the filtered stored events. -/
def scrape_venue (forceRefresh : Bool) (nowHours : Nat) (lastScraped : Option Nat)
    (today : PyDate) (scraped cachedStored : List Event) : List Event × Bool :=
  if ¬ forceRefresh ∧ is_venue_data_fresh nowHours lastScraped 24 then
    (filter_events_by_date today cachedStored, false)
  else if ¬ scraped.isEmpty then
    (filter_events_by_date today scraped, true)
  else
    (filter_events_by_date today cachedStored, true)

/-! ## Fetch with retry and caching (src/scrapers/base.py, BaseScraper.fetch_page) -/

/-- Result of a `fetch_page` run: the returned content or raised failure,
the content stored into the cache under the fixed (venue, url) key (if any),
and the sequence of back-off sleeps (in seconds) performed. -/
structure FetchResult where
  outcome : Except String String
  cacheWrite : Option String
  sleeps : List Nat
deriving Repr

/-- The retry loop `for attempt in range(3)` of `fetch_page`: `att i` is the
outcome of the i-th HTTP GET (`some content` on a 2xx response, `none` on a
`RequestException`, which includes the `raise_for_status` error statuses).
On success the content is cached and returned; on the last attempt (index 2)
the failure is raised; otherwise sleep `2 ^ attempt` seconds and retry. -/
def fetchAttempts (att : Nat → Option String) : List Nat → FetchResult
  | [] => ⟨Except.error "loop ended", none, []⟩
  | i :: rest =>
    match att i with
    | some content => ⟨Except.ok content, some content, []⟩
    | none =>
      if i = 2 then ⟨Except.error "Failed to fetch", none, []⟩
      else
        let r := fetchAttempts att rest
        ⟨r.outcome, r.cacheWrite, 2 ^ i :: r.sleeps⟩

/-- `BaseScraper.fetch_page` (src/scrapers/base.py lines 27-49): return the
cached content when present and truthy (a cached empty string is falsy in
Python and is ignored), else run the three-attempt retry loop. -/
def fetch_page (cached : Option String) (att : Nat → Option String) : FetchResult :=
  match cached with
  | some c => if c ≠ "" then ⟨Except.ok c, none, []⟩ else fetchAttempts att [0, 1, 2]
  | none => fetchAttempts att [0, 1, 2]

/-! ## Per-container parse isolation (src/scrapers/brick_mortar.py and
src/scrapers/neck_woods.py) -/

/-- `BrickMortarScraper._parse_single_event` (src/scrapers/brick_mortar.py
lines 25-60): its whole body is a try/except returning `None` on any raised
exception.  A container is modelled by the outcome of the try-block body:
`.error` for a raised exception, `.ok` for the returned optional event. -/
def bmParseSingle (container : Except String (Option Event)) : Option Event :=
  match container with
  | Except.error _ => none
  | Except.ok v => v

/-- `BrickMortarScraper.parse_events` loop (src/scrapers/brick_mortar.py
lines 18-23): parse each container, appending truthy results. -/
def bmParseEvents (containers : List (Except String (Option Event))) : List Event :=
  match containers with
  | [] => []
  | c :: rest =>
    match bmParseSingle c with
    | some e => e :: bmParseEvents rest
    | none => bmParseEvents rest

/-- `NeckOfTheWoodsScraper._parse_single_event` (src/scrapers/neck_woods.py
lines 40-42) executes `return self.parse_single_event(element)`; no method
`parse_single_event` exists on the class or its base `BaseScraper`, so every
call raises `AttributeError` — there is no try/except here. -/
def nwParseSingle (container : Unit) : Except String (Option Event) :=
  Except.error "AttributeError: no attribute parse_single_event"

/-- `NeckOfTheWoodsScraper.parse_events` loop (src/scrapers/neck_woods.py
lines 33-36): an exception raised by `_parse_single_event` propagates out of
the loop, abandoning the remaining containers. -/
def nwParseEvents (containers : List Unit) : Except String (List Event) :=
  match containers with
  | [] => Except.ok []
  | c :: rest =>
    match nwParseSingle c with
    | Except.error msg => Except.error msg
    | Except.ok (some e) => (nwParseEvents rest).map (fun l => e :: l)
    | Except.ok none => nwParseEvents rest

/-! ## Persistent store reconciliation (src/storage/database.py, Database.save_events)

The SQLite tables are modelled as lists of rows.  `save_events` keys its
lookup on (venue_id, date, artists, url): the identity tuple of the events
table's UNIQUE constraint.  Dates and times are persisted via `isoformat()`,
which is injective, so rows store the structured values and TEXT equality
coincides with structural equality. -/

/-- A row of the `venues` table (the columns `save_events` touches). -/
structure VenueRow where
  id : Nat
  name : String
  last_scraped : Option Nat
deriving DecidableEq, Repr

/-- A row of the `events` table (the columns `save_events` touches). -/
structure EventRow where
  id : Nat
  venue_id : Nat
  date : PyDate
  time : Option (Nat × Nat)
  artists : String
  url : String
  cost : Option String
  pinned : Bool
deriving DecidableEq, Repr

/-- Database state: the two tables plus the next fresh events-table primary
key (SQLite AUTOINCREMENT). -/
structure DBState where
  venues : List VenueRow
  events : List EventRow
  nextId : Nat
deriving DecidableEq, Repr

instance exceptDecEq {ε α : Type} [DecidableEq ε] [DecidableEq α] :
    DecidableEq (Except ε α)
  | Except.error a, Except.error b =>
    if h : a = b then Decidable.isTrue (by rw [h])
    else Decidable.isFalse (fun hc => h (by cases hc; rfl))
  | Except.error a, Except.ok b => Decidable.isFalse (fun hc => Except.noConfusion hc)
  | Except.ok a, Except.error b => Decidable.isFalse (fun hc => Except.noConfusion hc)
  | Except.ok a, Except.ok b =>
    if h : a = b then Decidable.isTrue (by rw [h])
    else Decidable.isFalse (fun hc => h (by cases hc; rfl))

/-- `Database.get_venue_id` (src/storage/database.py lines 88-94):
`SELECT id FROM venues WHERE name = ?` (name is UNIQUE; the first matching
row is returned). -/
def get_venue_id (st : DBState) (venueName : String) : Option Nat :=
  (st.venues.find? (fun v => v.name = venueName)).map (fun v => v.id)

/-- Does row `r` match candidate `e`'s identity key under venue `vid`
(the `WHERE venue_id = ? AND date = ? AND artists = ? AND url = ?` lookup)? -/
def matchesKey (vid : Nat) (e : Event) (r : EventRow) : Bool :=
  r.venue_id = vid ∧ r.date = e.date ∧ r.artists = e.artists_display ∧ r.url = e.url

/-- One iteration of the `save_events` loop (src/storage/database.py lines
109-155): look up an existing row by identity key; if found, UPDATE only its
time and cost; otherwise INSERT a new row carrying the candidate's pinned
value and count it as new.  Returns the new state and the count increment
(0 or 1). -/
def saveOne (vid : Nat) (st : DBState) (e : Event) : DBState × Nat :=
  match st.events.find? (matchesKey vid e) with
  | some existing =>
    ({ st with
        events := st.events.map (fun r =>
          if r.id = existing.id then { r with time := e.time, cost := e.cost } else r) },
      0)
  | none =>
    ({ st with
        events := st.events ++
          [⟨st.nextId, vid, e.date, e.time, e.artists_display, e.url, e.cost, e.pinned⟩],
        nextId := st.nextId + 1 },
      1)

/-- The `for event in events` loop of `save_events`, threading the state and
summing the new-event count. -/
def saveList (vid : Nat) (st : DBState) : List Event → DBState × Nat
  | [] => (st, 0)
  | e :: rest =>
    let p := saveOne vid st e
    let q := saveList vid p.1 rest
    (q.1, p.2 + q.2)

/-- `UPDATE venues SET last_scraped = ? WHERE id = ?` (src/storage/database.py
lines 158-161). -/
def touchVenue (st : DBState) (vid : Nat) (now : Nat) : DBState :=
  { st with
      venues := st.venues.map (fun v =>
        if v.id = vid then { v with last_scraped := some now } else v) }

/-- `Database.save_events` (src/storage/database.py lines 96-163): an empty
list returns 0 immediately with no effect; otherwise the venue of the first
event is resolved (`if not venue_id` — `None` or id 0 — raises ValueError),
every event is reconciled, and the venue's last-scraped timestamp is set. -/
def save_events (now : Nat) (st : DBState) (events : List Event) :
    Except String (DBState × Nat) :=
  match events with
  | [] => Except.ok (st, 0)
  | e0 :: _ =>
    match get_venue_id st e0.venue with
    | none => Except.error ("Venue " ++ e0.venue ++ " not found in database")
    | some vid =>
      if vid = 0 then Except.error ("Venue " ++ e0.venue ++ " not found in database")
      else
        let p := saveList vid st events
        Except.ok (touchVenue p.1 vid now, p.2)

/-- Core identity of a stored row: everything except the mutable time/cost
fields.  `sameCore r r'` says `r'` is `r` with at most time and cost
changed. -/
def sameCore (r r' : EventRow) : Prop :=
  r'.id = r.id ∧ r'.venue_id = r.venue_id ∧ r'.date = r.date
    ∧ r'.artists = r.artists ∧ r'.url = r.url ∧ r'.pinned = r.pinned

/-- The identity key of candidate `e` is present in the events table. -/
def keyPresent (vid : Nat) (e : Event) (st : DBState) : Prop :=
  ∃ r ∈ st.events, matchesKey vid e r = true

/-- The identity-key tuple of a stored row: the events table's UNIQUE
constraint is on (venue_id, date, artists, url). -/
def rowKey (r : EventRow) : Nat × PyDate × String × String :=
  (r.venue_id, r.date, r.artists, r.url)

/-- The identity-key part a candidate event contributes (its venue resolves
separately to a venue id). -/
def eKey (e : Event) : PyDate × String × String :=
  (e.date, e.artists_display, e.url)

/-- The invariants SQLite maintains on the events table: primary keys are
unique and below the next AUTOINCREMENT value, and the UNIQUE constraint on
the identity key holds. -/
def dbWF (st : DBState) : Prop :=
  st.events.Pairwise (fun a b => a.id ≠ b.id)
    ∧ (∀ r ∈ st.events, r.id < st.nextId)
    ∧ st.events.Pairwise (fun a b => rowKey a ≠ rowKey b)

instance dbWF_decidable (st : DBState) : Decidable (dbWF st) := by
  unfold dbWF
  infer_instance

lemma hasAmPmMarker_cons_false {c : Char} {l : List Char}
    (h : hasAmPmMarker (c :: l) = false) :
    matchAmPm (c :: l) = none ∧ hasAmPmMarker l = false := by
  simp only [hasAmPmMarker, Bool.or_eq_false_iff] at h
  exact ⟨Option.not_isSome_iff_eq_none.mp (by simp [h.1]), h.2⟩

lemma matchAmPm_eq_none {l : List Char} (h : hasAmPmMarker l = false) :
    matchAmPm l = none := by
  cases l with
  | nil => rfl
  | cons c r => exact (hasAmPmMarker_cons_false h).1

lemma hasAmPmMarker_dropWhile_false (p : Char → Bool) {l : List Char}
    (h : hasAmPmMarker l = false) : hasAmPmMarker (l.dropWhile p) = false := by
  induction l with
  | nil => exact h
  | cons c r ih =>
    rw [List.dropWhile_cons]
    by_cases hp : p c = true
    · simp only [hp, if_true]
      exact ih (hasAmPmMarker_cons_false h).2
    · simp only [hp, if_false]
      exact h

lemma matchMinAmPm_eq_none {l : List Char} (h : hasAmPmMarker l = false) :
    matchMinAmPm l = none := by
  match l with
  | [] => rfl
  | [c] =>
    have hdrop : matchAmPm ([c].dropWhile isPySpace) = none :=
      matchAmPm_eq_none (hasAmPmMarker_dropWhile_false _ h)
    rw [matchMinAmPm, hdrop]
    intro c1 c2 t hh
    simp at hh
  | c1 :: c2 :: rest =>
    have hdrop : matchAmPm ((c1 :: c2 :: rest).dropWhile isPySpace) = none :=
      matchAmPm_eq_none (hasAmPmMarker_dropWhile_false _ h)
    have h2 : hasAmPmMarker rest = false :=
      (hasAmPmMarker_cons_false (hasAmPmMarker_cons_false h).2).2
    have hdrop2 : matchAmPm (rest.dropWhile isPySpace) = none :=
      matchAmPm_eq_none (hasAmPmMarker_dropWhile_false _ h2)
    rw [matchMinAmPm, hdrop, hdrop2]
    simp

lemma matchColonMinAmPm_eq_none {l : List Char} (h : hasAmPmMarker l = false) :
    matchColonMinAmPm l = none := by
  unfold matchColonMinAmPm
  split
  · rename_i rest
    have hrest : hasAmPmMarker rest = false := (hasAmPmMarker_cons_false h).2
    rw [matchMinAmPm_eq_none hrest, matchMinAmPm_eq_none h]
  · exact matchMinAmPm_eq_none h

lemma matchAt_eq_none {l : List Char} (h : hasAmPmMarker l = false) :
    matchAt l = none := by
  match l with
  | [] => rfl
  | [d1] =>
    rw [matchAt]
    split <;> rfl
  | d1 :: d2 :: rest2 =>
    have hrest : hasAmPmMarker (d2 :: rest2) = false := (hasAmPmMarker_cons_false h).2
    have hrest2 : hasAmPmMarker rest2 = false := (hasAmPmMarker_cons_false hrest).2
    rw [matchAt, matchColonMinAmPm_eq_none hrest, matchColonMinAmPm_eq_none hrest2]
    simp

lemma searchTime_eq_none {l : List Char} (h : hasAmPmMarker l = false) :
    searchTime l = none := by
  induction l with
  | nil => rfl
  | cons c rest ih =>
    simp [searchTime, matchAt_eq_none h, ih (hasAmPmMarker_cons_false h).2]

/-- Claim C5: `BaseScraper.parse_time_ampm` maps "8:00 pm" to 20:00,
"12:00 am" to 00:00 and "12:30 PM" to 12:30; it is case-insensitive
("11:30AM"), defaults missing minutes to 0 ("8pm" → 20:00), applies the
12-hour→24-hour rule with 12am→0 and 12pm→12 ("12:15 pm" → 12:15), and for
every input containing no am/pm marker it returns `none` rather than
raising. -/
theorem parse_time_ampm_spec :
    parse_time_ampm "8:00 pm" = some (20, 0)
    ∧ parse_time_ampm "12:00 am" = some (0, 0)
    ∧ parse_time_ampm "12:30 PM" = some (12, 30)
    ∧ parse_time_ampm "11:30AM" = some (11, 30)
    ∧ parse_time_ampm "8pm" = some (20, 0)
    ∧ parse_time_ampm "12:15 pm" = some (12, 15)
    ∧ ∀ s : String, hasAmPmMarker s.data = false → parse_time_ampm s = none := by
  refine ⟨by decide, by decide, by decide, by decide, by decide, by decide, ?_⟩
  intro s h
  simp [parse_time_ampm, searchTime_eq_none h]

/-- Claim C5 witness: the no-marker implication applied to the concrete
marker-free string "hello 9:30". -/
theorem parse_time_ampm_spec_witness :
    hasAmPmMarker "hello 9:30".data = false ∧ parse_time_ampm "hello 9:30" = none :=
  ⟨by decide, parse_time_ampm_spec.2.2.2.2.2.2 "hello 9:30" (by decide)⟩

lemma mkDate_year {y m d : Int} {p : PyDate} (h : mkDate y m d = some p) :
    p.year = y.toNat ∧ p.month = m.toNat ∧ 1 ≤ m ∧ m ≤ 12 := by
  simp only [mkDate] at h
  split at h
  · rename_i hg
    simp only [Option.some.injEq] at h
    subst h
    exact ⟨rfl, rfl, hg.1, hg.2.1⟩
  · exact absurd h (by simp)

lemma extract_year_aux {cy cm : Nat} {month day : Int} {p : PyDate}
    (h : mkDate (if month < (cm : Int) then (cy : Int) + 1 else (cy : Int)) month day
          = some p) :
    (p.month < cm → p.year = cy + 1) ∧ (cm ≤ p.month → p.year = cy) := by
  obtain ⟨hy, hm, h1, h12⟩ := mkDate_year h
  by_cases hlt : month < (cm : Int)
  · rw [if_pos hlt] at hy
    refine ⟨fun _ => by omega, fun hge => ?_⟩
    rw [hm] at hge
    omega
  · rw [if_neg hlt] at hy
    refine ⟨fun hlt2 => ?_, fun _ => by omega⟩
    rw [hm] at hlt2
    omega

/-- Claim C4: whenever `BrickMortarScraper._extract_date` successfully parses
a month/day date text, the resolved year is current year + 1 exactly when the
parsed month is numerically smaller than the current month, and the current
year otherwise (including when the months are equal); in particular at the
December boundary "1.15" resolves to January of the next year and "12.31"
stays in the current year. -/
theorem extract_date_year_resolution :
    (∀ (cy cm : Nat) (text : String) (d : PyDate),
        extract_date cy cm text = some d →
          (d.month < cm → d.year = cy + 1) ∧ (cm ≤ d.month → d.year = cy))
    ∧ extract_date 2025 12 "1.15" = some ⟨2026, 1, 15⟩
    ∧ extract_date 2025 12 "12.31" = some ⟨2025, 12, 31⟩
    ∧ extract_date 2025 6 "6.20" = some ⟨2025, 6, 20⟩ := by
  refine ⟨?_, by decide, by decide, by decide⟩
  intro cy cm text d h
  simp only [extract_date] at h
  split at h <;> try exact absurd h (by simp)
  split at h <;> try exact absurd h (by simp)
  split at h <;> try exact absurd h (by simp)
  exact extract_year_aux h

/-- Claim C4 witness: the year-resolution property applied at current month
December with parsed month January. -/
theorem extract_date_year_resolution_witness :
    extract_date 2025 12 "1.15" = some ⟨2026, 1, 15⟩ ∧ (2026 : Nat) = 2025 + 1 :=
  ⟨by decide,
    (extract_date_year_resolution.1 2025 12 "1.15" ⟨2026, 1, 15⟩ (by decide)).1 (by decide)⟩

/-- Claim C6: the display window is [first day of the current month, first
day of the month after next) — with the month-after-next wrapping the year
when the current month is November or December — and
`filter_events_by_date` keeps exactly the events whose date is ≥ today and
inside the half-open window; the spec's June-15 reference example holds. -/
theorem calendar_window_and_filter :
    (∀ today : PyDate,
        (get_current_and_next_month_range today).1 = ⟨today.year, today.month, 1⟩)
    ∧ (∀ y m d : Nat, 1 ≤ m → m ≤ 12 →
        (get_current_and_next_month_range ⟨y, m, d⟩).2 =
          if m ≤ 10 then ⟨y, m + 2, 1⟩ else ⟨y + 1, m - 10, 1⟩)
    ∧ (∀ (today : PyDate) (evs : List Event) (e : Event),
        e ∈ filter_events_by_date today evs ↔
          e ∈ evs ∧ dateLe today e.date = true
            ∧ dateLe (get_current_and_next_month_range today).1 e.date = true
            ∧ dateLt e.date (get_current_and_next_month_range today).2 = true)
    ∧ get_current_and_next_month_range ⟨2025, 6, 15⟩ = (⟨2025, 6, 1⟩, ⟨2025, 8, 1⟩)
    ∧ (dateLe ⟨2025, 6, 15⟩ ⟨2025, 6, 30⟩ = true ∧ dateLe ⟨2025, 6, 1⟩ ⟨2025, 6, 30⟩ = true
        ∧ dateLt ⟨2025, 6, 30⟩ ⟨2025, 8, 1⟩ = true)
    ∧ dateLt ⟨2025, 8, 1⟩ ⟨2025, 8, 1⟩ = false
    ∧ dateLe ⟨2025, 6, 15⟩ ⟨2025, 6, 10⟩ = false := by
  refine ⟨fun today => rfl, ?_, ?_, by decide, by decide, by decide, by decide⟩
  · intro y m d h1 h2
    simp only [get_current_and_next_month_range, firstOfMonth, addMonths]
    split <;> rename_i hm <;> rw [PyDate.mk.injEq] <;> omega
  · intro today evs e
    simp only [filter_events_by_date, List.mem_filter, decide_eq_true_eq]

/-- Claim C6 witness: the month-after-next formula applied at June (no year
wrap) — together with the theorem's unconditional June-15 conjuncts this
instantiates the window claim. -/
theorem calendar_window_and_filter_witness :
    (get_current_and_next_month_range ⟨2025, 6, 15⟩).2 = ⟨2025, 8, 1⟩ :=
  calendar_window_and_filter.2.1 2025 6 15 (by decide) (by decide)

lemma char_toNat_ofNat (n : Nat) (h : n < 0xd800) : (Char.ofNat n).toNat = n := by
  simp [Char.ofNat, Nat.isValidChar, h, Char.toNat, Char.ofNatAux, UInt32.toNat,
    BitVec.toNat_ofNatLt]

lemma pyUpperChar_idem (c : Char) : pyUpperChar (pyUpperChar c) = pyUpperChar c := by
  by_cases h : 'a' ≤ c ∧ c ≤ 'z'
  · have h1 : pyUpperChar c = Char.ofNat (c.toNat - 32) := by
      rw [pyUpperChar, if_pos h]
    have h97 : 97 ≤ c.toNat := h.1
    have h122 : c.toNat ≤ 122 := h.2
    have ht : (Char.ofNat (c.toNat - 32)).toNat = c.toNat - 32 :=
      char_toNat_ofNat _ (by omega)
    have hno : ¬ ('a' ≤ Char.ofNat (c.toNat - 32) ∧ Char.ofNat (c.toNat - 32) ≤ 'z') := by
      intro hcon
      have h2 : 97 ≤ (Char.ofNat (c.toNat - 32)).toNat := hcon.1
      omega
    rw [h1, pyUpperChar, if_neg hno]
  · have h1 : pyUpperChar c = c := by rw [pyUpperChar, if_neg h]
    rw [h1, h1]

lemma pyUpper_idem (l : List Char) : pyUpper (pyUpper l) = pyUpper l := by
  simp only [pyUpper, List.map_map]
  exact List.map_congr_left (fun c _ => pyUpperChar_idem c)

lemma pyUpper_ne_nil {l : List Char} (h : l ≠ []) : pyUpper l ≠ [] := by
  cases l with
  | nil => exact absurd rfl h
  | cons c r => simp [pyUpper]

lemma mkUpper_ne_empty {l : List Char} (h : l ≠ []) : String.mk (pyUpper l) ≠ "" := by
  intro hcon
  have hdata : pyUpper l = [] := congrArg String.data hcon
  exact pyUpper_ne_nil h hdata

lemma canFooBar : clean_artist_names "Foo & Bar" = ["FOO", "BAR"] := by decide

lemma canEmDash : clean_artist_names "Abc—XOXO Tour" = ["ABC"] := by decide

lemma canTour : clean_artist_names "Band-tour 2024" = ["BAND"] := by decide

lemma canQuoted :
    clean_artist_names "MAC DEMARCO \"THE PREVAIL TOUR\" , gus" = ["MAC DEMARCO", "GUS"] := by
  decide

lemma canEmpties : clean_artist_names "a, ,b" = ["A", "B"] := by decide

lemma canAnd : clean_artist_names "Alice AND Bob" = ["ALICE", "BOB"] := by decide

lemma canWith : clean_artist_names "Zeta WITH Alpha" = ["ZETA", "ALPHA"] := by decide

/-- Claim C9: `BaseScraper.clean_artist_names` strips quoted tour
annotations, em-dash suffixes and lowercase "-...tour..." suffixes, splits on
the first separator found among `,`, `&`, " AND ", " WITH ", uppercases the
parts and drops empties; every returned name is non-empty and fixed under
uppercasing, and the input order of the parts is preserved (witnessed on the
concrete evaluations). -/
theorem clean_artist_names_spec :
    (∀ (t s : String), s ∈ clean_artist_names t → s ≠ "" ∧ pyUpper s.data = s.data)
    ∧ clean_artist_names "Foo & Bar" = ["FOO", "BAR"]
    ∧ clean_artist_names "Abc—XOXO Tour" = ["ABC"]
    ∧ clean_artist_names "Band-tour 2024" = ["BAND"]
    ∧ clean_artist_names "MAC DEMARCO \"THE PREVAIL TOUR\" , gus" = ["MAC DEMARCO", "GUS"]
    ∧ clean_artist_names "a, ,b" = ["A", "B"]
    ∧ clean_artist_names "Alice AND Bob" = ["ALICE", "BOB"]
    ∧ clean_artist_names "Zeta WITH Alpha" = ["ZETA", "ALPHA"] := by
  refine ⟨?_, canFooBar, canEmDash, canTour, canQuoted, canEmpties, canAnd, canWith⟩
  intro t s hs
  unfold clean_artist_names at hs
  split at hs
  · exact absurd hs (by simp)
  · generalize hg : cleanedText t = u at hs
    split at hs
    · exact absurd hs (by simp)
    · rename_i ht
      unfold splitArtists at hs
      split at hs
      · rcases List.mem_map.mp hs with ⟨p, hp, rfl⟩
        rcases List.mem_filter.mp hp with ⟨hpmem, hpcond⟩
        have hpstrip : ¬ pyStrip p = [] := by simpa using hpcond
        have hpne : p ≠ [] := fun hpe => hpstrip (by rw [hpe]; rfl)
        exact ⟨mkUpper_ne_empty hpne, pyUpper_idem p⟩
      · simp only [List.mem_singleton] at hs
        subst hs
        exact ⟨mkUpper_ne_empty ht, pyUpper_idem u⟩

/-- Claim C9 witness: the non-empty/uppercase property applied to the
member "FOO" of the cleanup of "Foo & Bar". -/
theorem clean_artist_names_spec_witness :
    ("FOO" ∈ clean_artist_names "Foo & Bar")
      ∧ "FOO" ≠ "" ∧ pyUpper "FOO".data = "FOO".data :=
  ⟨by decide, clean_artist_names_spec.1 "Foo & Bar" "FOO" (by decide)⟩

/-- Claim C3: `scrape_venue` returns the stored events (display-filtered)
without fetching when the venue is fresh and no refresh is forced; when the
data is stale or a refresh is forced it scrapes, returning the filtered
fresh events, or falling back to the filtered stored events if the scrape
yields nothing.  Freshness uses the 24-hour window: 1 hour old is fresh,
25 hours old is stale. -/
theorem scrape_venue_cache_decision :
    (∀ (now : Nat) (last : Option Nat) (today : PyDate) (scraped cached : List Event),
      is_venue_data_fresh now last 24 = true →
        scrape_venue false now last today scraped cached =
          (filter_events_by_date today cached, false))
    ∧ (∀ (force : Bool) (now : Nat) (last : Option Nat) (today : PyDate)
        (scraped cached : List Event),
        (force = true ∨ is_venue_data_fresh now last 24 = false) →
          (scrape_venue force now last today scraped cached).2 = true
          ∧ (scraped ≠ [] →
              (scrape_venue force now last today scraped cached).1 =
                filter_events_by_date today scraped)
          ∧ (scraped = [] →
              (scrape_venue force now last today scraped cached).1 =
                filter_events_by_date today cached))
    ∧ is_venue_data_fresh 25 (some 24) 24 = true
    ∧ is_venue_data_fresh 25 (some 0) 24 = false
    ∧ is_venue_data_fresh 7 none 24 = false := by
  refine ⟨?_, ?_, by decide, by decide, by decide⟩
  · intro now last today scraped cached hfresh
    simp [scrape_venue, hfresh]
  · intro force now last today scraped cached hstale
    have hcond : ¬ (¬ force = true ∧ is_venue_data_fresh now last 24 = true) := by
      rcases hstale with h | h <;> simp [h]
    rw [scrape_venue, if_neg hcond]
    by_cases hemp : scraped.isEmpty
    · rw [if_neg (by simp [hemp])]
      refine ⟨rfl, fun hne => absurd (List.isEmpty_iff.mp hemp) hne, fun _ => rfl⟩
    · rw [if_pos (by simp [hemp])]
      refine ⟨rfl, fun _ => rfl, fun he => absurd he (by simp [List.isEmpty_iff] at hemp ⊢; exact hemp)⟩

/-- Claim C3 witness: a venue scraped 1 hour ago (now = 25, last = 24) with
no forced refresh returns the filtered cached events and performs no fetch;
a venue scraped 25 hours ago fetches. -/
theorem scrape_venue_cache_decision_witness :
    scrape_venue false 25 (some 24) ⟨2025, 6, 15⟩ [] [] =
      (filter_events_by_date ⟨2025, 6, 15⟩ [], false)
    ∧ (scrape_venue false 25 (some 0) ⟨2025, 6, 15⟩ [] []).2 = true :=
  ⟨scrape_venue_cache_decision.1 25 (some 24) ⟨2025, 6, 15⟩ [] [] (by decide),
    ((scrape_venue_cache_decision.2.1 false 25 (some 0) ⟨2025, 6, 15⟩ [] [])
      (Or.inr (by decide))).1⟩

/-- Claim C8: with no usable cached content, `fetch_page` makes at most 3
GET attempts (its behaviour is a function of attempts 0, 1, 2 only),
returns and caches the first successful attempt's content, sleeps
2^attempt seconds (1 then 2) after each failed non-final attempt, and
raises exactly when all 3 attempts fail. -/
theorem fetch_page_retry_spec :
    ∀ att : Nat → Option String,
      fetch_page none att =
        match att 0 with
        | some c => ⟨Except.ok c, some c, []⟩
        | none =>
          match att 1 with
          | some c => ⟨Except.ok c, some c, [1]⟩
          | none =>
            match att 2 with
            | some c => ⟨Except.ok c, some c, [1, 2]⟩
            | none => ⟨Except.error "Failed to fetch", none, [1, 2]⟩ := by
  intro att
  cases h0 : att 0 <;> cases h1 : att 1 <;> cases h2 : att 2 <;>
    simp [fetch_page, fetchAttempts, h0, h1, h2]

/-- Claim C7 (code bug): for Brick & Mortar, a container whose extraction
raises is skipped and all sibling containers are still processed, and
`parse_events` is total; but for Neck of the Woods, `_parse_single_event`
calls the nonexistent method `parse_single_event`, so the very first
container raises `AttributeError` and `parse_events` propagates it,
abandoning every remaining container — the claim fails for that parser. -/
theorem parse_events_container_isolation :
    (∀ (pre post : List (Except String (Option Event))) (err : String),
      bmParseEvents (pre ++ Except.error err :: post) =
        bmParseEvents pre ++ bmParseEvents post)
    ∧ nwParseSingle () = Except.error "AttributeError: no attribute parse_single_event"
    ∧ nwParseEvents [(), ()] =
        Except.error "AttributeError: no attribute parse_single_event" := by
  refine ⟨?_, rfl, rfl⟩
  intro pre post err
  induction pre with
  | nil => rfl
  | cons c rest ih =>
    cases c with
    | error msg => simpa [bmParseEvents, bmParseSingle] using ih
    | ok v =>
      cases v with
      | none => simpa [bmParseEvents, bmParseSingle] using ih
      | some e => simp [bmParseEvents, bmParseSingle, ih]

lemma sameCore_refl (r : EventRow) : sameCore r r :=
  ⟨rfl, rfl, rfl, rfl, rfl, rfl⟩

lemma sameCore_trans {r r' r'' : EventRow} (h1 : sameCore r r') (h2 : sameCore r' r'') :
    sameCore r r'' := by
  obtain ⟨a1, b1, c1, d1, e1, f1⟩ := h1
  obtain ⟨a2, b2, c2, d2, e2, f2⟩ := h2
  exact ⟨a2.trans a1, b2.trans b1, c2.trans c1, d2.trans d1, e2.trans e1, f2.trans f1⟩

lemma saveOne_events_frame (vid : Nat) (st : DBState) (e : Event) {r : EventRow}
    (hr : r ∈ st.events) :
    ∃ r' ∈ (saveOne vid st e).1.events, sameCore r r' := by
  unfold saveOne
  cases hf : st.events.find? (matchesKey vid e) with
  | none =>
    exact ⟨r, List.mem_append_left _ hr, sameCore_refl r⟩
  | some ex =>
    refine ⟨if r.id = ex.id then { r with time := e.time, cost := e.cost } else r,
      List.mem_map_of_mem _ hr, ?_⟩
    by_cases hid : r.id = ex.id
    · rw [if_pos hid]
      exact ⟨rfl, rfl, rfl, rfl, rfl, rfl⟩
    · rw [if_neg hid]
      exact sameCore_refl r

lemma saveList_events_frame (evs : List Event) (vid : Nat) (st : DBState) {r : EventRow}
    (hr : r ∈ st.events) :
    ∃ r' ∈ (saveList vid st evs).1.events, sameCore r r' := by
  induction evs generalizing st r with
  | nil => exact ⟨r, hr, sameCore_refl r⟩
  | cons a rest ih =>
    obtain ⟨r1, hr1, hc1⟩ := saveOne_events_frame vid st a hr
    obtain ⟨r2, hr2, hc2⟩ := ih _ hr1
    exact ⟨r2, hr2, sameCore_trans hc1 hc2⟩

lemma saveOne_venues (vid : Nat) (st : DBState) (e : Event) :
    (saveOne vid st e).1.venues = st.venues := by
  unfold saveOne
  cases st.events.find? (matchesKey vid e) <;> rfl

lemma saveList_venues (evs : List Event) (vid : Nat) (st : DBState) :
    (saveList vid st evs).1.venues = st.venues := by
  induction evs generalizing st with
  | nil => rfl
  | cons a rest ih => exact (ih _).trans (saveOne_venues vid st a)

lemma touchVenue_events (st : DBState) (vid now : Nat) :
    (touchVenue st vid now).events = st.events := rfl

lemma find?_map_touch (vid now : Nat) (name : String) (vs : List VenueRow) :
    ((vs.map (fun v => if v.id = vid then { v with last_scraped := some now } else v)).find?
        (fun v => v.name = name)).map (fun v => v.id)
      = (vs.find? (fun v => v.name = name)).map (fun v => v.id) := by
  induction vs with
  | nil => rfl
  | cons v rest ih =>
    by_cases hv : v.id = vid
    · by_cases hn : v.name = name
      · simp [List.find?, hv, hn]
      · simpa [List.find?, hv, hn] using ih
    · by_cases hn : v.name = name
      · simp [List.find?, hv, hn]
      · simpa [List.find?, hv, hn] using ih

lemma get_venue_id_touch (st : DBState) (vid now : Nat) (name : String) :
    get_venue_id (touchVenue st vid now) name = get_venue_id st name := by
  unfold get_venue_id touchVenue
  exact find?_map_touch vid now name st.venues

lemma matchesKey_update (vid : Nat) (e e' : Event) (r : EventRow) :
    matchesKey vid e ({ r with time := e'.time, cost := e'.cost }) = matchesKey vid e r := rfl

lemma keyPresent_saveOne_mono {vid : Nat} {e : Event} {st : DBState}
    (vid' : Nat) (e' : Event) (h : keyPresent vid e st) :
    keyPresent vid e (saveOne vid' st e').1 := by
  obtain ⟨r, hr, hm⟩ := h
  unfold saveOne
  cases hf : st.events.find? (matchesKey vid' e') with
  | none => exact ⟨r, List.mem_append_left _ hr, hm⟩
  | some ex =>
    refine ⟨if r.id = ex.id then { r with time := e'.time, cost := e'.cost } else r,
      List.mem_map_of_mem _ hr, ?_⟩
    by_cases hid : r.id = ex.id
    · rw [if_pos hid, matchesKey_update]
      exact hm
    · rw [if_neg hid]
      exact hm

lemma keyPresent_saveOne_self (vid : Nat) (e : Event) (st : DBState) :
    keyPresent vid e (saveOne vid st e).1 := by
  unfold saveOne
  cases hf : st.events.find? (matchesKey vid e) with
  | none =>
    refine ⟨⟨st.nextId, vid, e.date, e.time, e.artists_display, e.url, e.cost, e.pinned⟩,
      List.mem_append_right _ (List.mem_singleton.mpr rfl), ?_⟩
    simp [matchesKey]
  | some ex =>
    have hmem : ex ∈ st.events := List.mem_of_find?_eq_some hf
    have hmatch : matchesKey vid e ex = true := List.find?_some hf
    refine ⟨{ ex with time := e.time, cost := e.cost }, ?_, by rw [matchesKey_update]; exact hmatch⟩
    have := List.mem_map_of_mem
      (fun r => if r.id = ex.id then { r with time := e.time, cost := e.cost } else r) hmem
    simpa using this

lemma keyPresent_saveList_mono {vid : Nat} {e : Event} (l : List Event)
    (vid' : Nat) {st : DBState} (h : keyPresent vid e st) :
    keyPresent vid e (saveList vid' st l).1 := by
  induction l generalizing st with
  | nil => exact h
  | cons a rest ih => exact ih (keyPresent_saveOne_mono vid' a h)

lemma saveList_keys_present {vid : Nat} (l : List Event) (st : DBState)
    {e : Event} (he : e ∈ l) :
    keyPresent vid e (saveList vid st l).1 := by
  induction l generalizing st with
  | nil => exact absurd he (by simp)
  | cons a rest ih =>
    rcases List.mem_cons.mp he with rfl | hmem
    · exact keyPresent_saveList_mono rest vid (keyPresent_saveOne_self vid e st)
    · exact ih _ hmem

lemma saveOne_count_zero {vid : Nat} {e : Event} {st : DBState}
    (h : keyPresent vid e st) : (saveOne vid st e).2 = 0 := by
  obtain ⟨r, hr, hm⟩ := h
  unfold saveOne
  cases hf : st.events.find? (matchesKey vid e) with
  | none =>
    have := List.find?_eq_none.mp hf r hr
    exact absurd hm this
  | some ex => rfl

lemma saveList_count_zero {vid : Nat} (l : List Event) (st : DBState)
    (h : ∀ e ∈ l, keyPresent vid e st) : (saveList vid st l).2 = 0 := by
  induction l generalizing st with
  | nil => rfl
  | cons a rest ih =>
    have h0 : (saveOne vid st a).2 = 0 := saveOne_count_zero (h a (by simp))
    have hrest : ∀ e ∈ rest, keyPresent vid e (saveOne vid st a).1 :=
      fun e he => keyPresent_saveOne_mono vid a (h e (List.mem_cons_of_mem a he))
    show (saveOne vid st a).2 + (saveList vid (saveOne vid st a).1 rest).2 = 0
    rw [h0, ih _ hrest]

lemma matchesKey_iff {vid : Nat} {e : Event} {r : EventRow} :
    matchesKey vid e r = true ↔ rowKey r = (vid, e.date, e.artists_display, e.url) := by
  simp [matchesKey, rowKey, Prod.ext_iff]

lemma eKey_eq_of_matches {vid : Nat} {e e' : Event} {r : EventRow}
    (h : matchesKey vid e r = true) (h' : matchesKey vid e' r = true) :
    eKey e = eKey e' := by
  have heq := (matchesKey_iff.mp h).symm.trans (matchesKey_iff.mp h')
  simp only [Prod.mk.injEq] at heq
  simp [eKey, Prod.ext_iff, heq.2.1, heq.2.2.1, heq.2.2.2]

lemma pairwise_key_inj {α β : Type} (f : α → β) {l : List α}
    (h : l.Pairwise (fun a b => f a ≠ f b)) {a b : α}
    (ha : a ∈ l) (hb : b ∈ l) (hf : f a = f b) : a = b := by
  induction l with
  | nil => cases ha
  | cons x xs ih =>
    obtain ⟨hx, hxs⟩ := List.pairwise_cons.mp h
    rcases List.mem_cons.mp ha with rfl | ha'
    · rcases List.mem_cons.mp hb with rfl | hb'
      · rfl
      · exact absurd hf (hx b hb')
    · rcases List.mem_cons.mp hb with rfl | hb'
      · exact absurd hf.symm (hx a ha')
      · exact ih hxs ha' hb'

lemma saveOne_untouched {vid : Nat} {e : Event} {st : DBState} {r : EventRow}
    (hpw : st.events.Pairwise (fun a b => a.id ≠ b.id))
    (hr : r ∈ st.events) (hm : matchesKey vid e r = false) :
    r ∈ (saveOne vid st e).1.events := by
  unfold saveOne
  cases hf : st.events.find? (matchesKey vid e) with
  | none => exact List.mem_append_left _ hr
  | some ex =>
    have hexmem : ex ∈ st.events := List.mem_of_find?_eq_some hf
    have hexmatch : matchesKey vid e ex = true := List.find?_some hf
    have hid : ¬ r.id = ex.id := by
      intro hid
      have hre : r = ex := pairwise_key_inj (fun x => x.id) hpw hr hexmem hid
      rw [← hre] at hexmatch
      rw [hexmatch] at hm
      exact absurd hm (by simp)
    have himg := List.mem_map_of_mem
      (fun x => if x.id = ex.id then { x with time := e.time, cost := e.cost } else x) hr
    simpa [hid] using himg

lemma saveOne_matched {vid : Nat} {e : Event} {st : DBState} {r : EventRow}
    (hpw : st.events.Pairwise (fun a b => a.id ≠ b.id))
    (huk : st.events.Pairwise (fun a b => rowKey a ≠ rowKey b))
    (hr : r ∈ st.events) (hm : matchesKey vid e r = true) :
    ({ r with time := e.time, cost := e.cost }) ∈ (saveOne vid st e).1.events := by
  unfold saveOne
  cases hf : st.events.find? (matchesKey vid e) with
  | none => exact absurd hm (by simpa using List.find?_eq_none.mp hf r hr)
  | some ex =>
    have hexmem : ex ∈ st.events := List.mem_of_find?_eq_some hf
    have hexmatch : matchesKey vid e ex = true := List.find?_some hf
    have hkey : rowKey r = rowKey ex :=
      (matchesKey_iff.mp hm).trans (matchesKey_iff.mp hexmatch).symm
    have hre : r = ex := pairwise_key_inj rowKey huk hr hexmem hkey
    subst hre
    have himg := List.mem_map_of_mem
      (fun x => if x.id = r.id then { x with time := e.time, cost := e.cost } else x) hr
    simpa using himg

lemma saveOne_wf {vid : Nat} {e : Event} {st : DBState} (h : dbWF st) :
    dbWF (saveOne vid st e).1 := by
  obtain ⟨hpw, hbound, huk⟩ := h
  unfold saveOne
  cases hf : st.events.find? (matchesKey vid e) with
  | some ex =>
    have hfid : ∀ x : EventRow,
        ((fun x => if x.id = ex.id then { x with time := e.time, cost := e.cost } else x) x).id
          = x.id := by
      intro x
      by_cases hx : x.id = ex.id <;> simp [hx]
    have hfkey : ∀ x : EventRow,
        rowKey ((fun x => if x.id = ex.id then { x with time := e.time, cost := e.cost } else x) x)
          = rowKey x := by
      intro x
      by_cases hx : x.id = ex.id <;> simp [hx, rowKey]
    refine ⟨List.Pairwise.map _ (fun a b hab => ?_) hpw, ?_, List.Pairwise.map _ (fun a b hab => ?_) huk⟩
    · rw [hfid, hfid]
      exact hab
    · intro r' hr'
      obtain ⟨x, hx, rfl⟩ := List.mem_map.mp hr'
      rw [hfid]
      exact hbound x hx
    · rw [hfkey, hfkey]
      exact hab
  | none =>
    have hnew : ∀ a ∈ st.events, ¬ matchesKey vid e a = true := by
      intro a ha
      simpa using List.find?_eq_none.mp hf a ha
    refine ⟨?_, ?_, ?_⟩
    · rw [List.pairwise_append]
      refine ⟨hpw, List.pairwise_singleton _ _, ?_⟩
      intro a ha b hb
      rw [List.mem_singleton.mp hb]
      exact Nat.ne_of_lt (hbound a ha)
    · intro r' hr'
      rcases List.mem_append.mp hr' with hl | hr2
      · exact Nat.lt_trans (hbound r' hl) (Nat.lt_succ_self _)
      · rw [List.mem_singleton.mp hr2]
        exact Nat.lt_succ_self _
    · rw [List.pairwise_append]
      refine ⟨huk, List.pairwise_singleton _ _, ?_⟩
      intro a ha b hb hcon
      rw [List.mem_singleton.mp hb] at hcon
      have : matchesKey vid e a = true := matchesKey_iff.mpr (by simpa [rowKey] using hcon)
      exact hnew a ha this

lemma saveList_wf {vid : Nat} (l : List Event) {st : DBState} (h : dbWF st) :
    dbWF (saveList vid st l).1 := by
  induction l generalizing st with
  | nil => exact h
  | cons a rest ih => exact ih (saveOne_wf h)

lemma saveList_untouched {vid : Nat} (l : List Event) {st : DBState} {r : EventRow}
    (hwf : dbWF st) (hr : r ∈ st.events)
    (hall : ∀ e ∈ l, matchesKey vid e r = false) :
    r ∈ (saveList vid st l).1.events := by
  induction l generalizing st with
  | nil => exact hr
  | cons a rest ih =>
    have hr1 : r ∈ (saveOne vid st a).1.events :=
      saveOne_untouched hwf.1 hr (hall a (by simp))
    exact ih (saveOne_wf hwf) hr1 (fun e he => hall e (List.mem_cons_of_mem a he))

lemma saveList_matched {vid : Nat} (l : List Event) {st : DBState} {e : Event} {r : EventRow}
    (hwf : dbWF st) (hek : l.Pairwise (fun a b => eKey a ≠ eKey b))
    (he : e ∈ l) (hr : r ∈ st.events) (hm : matchesKey vid e r = true) :
    ({ r with time := e.time, cost := e.cost }) ∈ (saveList vid st l).1.events := by
  induction l generalizing st with
  | nil => cases he
  | cons a rest ih =>
    obtain ⟨hka, hkrest⟩ := List.pairwise_cons.mp hek
    rcases List.mem_cons.mp he with rfl | hmem
    · have hupd := saveOne_matched hwf.1 hwf.2.2 hr hm
      refine saveList_untouched rest (saveOne_wf hwf) hupd ?_
      intro e' he'
      by_contra hcon
      have hcon' : matchesKey vid e' ({ r with time := e.time, cost := e.cost }) = true :=
        Bool.not_eq_false _ |>.mp hcon
      rw [matchesKey_update] at hcon'
      exact hka e' he' (eKey_eq_of_matches hm hcon')
    · have hma : matchesKey vid a r = false := by
        by_contra hcon
        have hcon' : matchesKey vid a r = true := Bool.not_eq_false _ |>.mp hcon
        exact hka e hmem (eKey_eq_of_matches hcon' hm)
      have hr1 : r ∈ (saveOne vid st a).1.events := saveOne_untouched hwf.1 hr hma
      exact ih (saveOne_wf hwf) hkrest hmem hr1

/-- Claim C1: under the SQLite table invariants (unique ids, UNIQUE identity
keys) and scrape-produced candidate lists (pairwise-distinct identity keys),
a completed `save_events` call (a) keeps every pre-existing row with its id,
identity fields and pinned flag intact (only time/cost can change) — so a
pinned row stays pinned even though scraped candidates arrive with
pinned = false; (b) gives the row matched by a candidate's identity key
exactly that candidate's time and cost while keeping its id, identity fields
and pinned flag; (c) leaves rows matched by no candidate entirely
unchanged. -/
theorem save_events_pin_preservation
    (now : Nat) (st : DBState) (e0 : Event) (rest : List Event) (st' : DBState)
    (n vid : Nat)
    (hwf : dbWF st)
    (hek : (e0 :: rest).Pairwise (fun a b => eKey a ≠ eKey b))
    (hv : get_venue_id st e0.venue = some vid)
    (h : save_events now st (e0 :: rest) = Except.ok (st', n)) :
    (∀ r ∈ st.events, ∃ r' ∈ st'.events, sameCore r r')
    ∧ (∀ e ∈ e0 :: rest, ∀ r ∈ st.events, matchesKey vid e r = true →
        ({ r with time := e.time, cost := e.cost }) ∈ st'.events)
    ∧ (∀ r ∈ st.events, (∀ e ∈ e0 :: rest, matchesKey vid e r = false) →
        r ∈ st'.events) := by
  simp only [save_events, hv] at h
  split at h
  · exact absurd h (by simp)
  · simp only [Except.ok.injEq, Prod.mk.injEq] at h
    obtain ⟨hst', hn⟩ := h
    subst hst'
    refine ⟨?_, ?_, ?_⟩
    · intro r hr
      obtain ⟨r', hr', hc⟩ := saveList_events_frame (e0 :: rest) vid st hr
      exact ⟨r', by rw [touchVenue_events]; exact hr', hc⟩
    · intro e he r hr hm
      rw [touchVenue_events]
      exact saveList_matched (e0 :: rest) hwf hek he hr hm
    · intro r hr hall
      rw [touchVenue_events]
      exact saveList_untouched (e0 :: rest) hwf hr hall

/-- Claim C1 witness: a stored pinned row (id 5) whose identity key is
re-scraped with new time/cost and pinned = false; after the save the row
keeps id 5 and pinned = true while carrying the new time and cost. -/
theorem save_events_pin_preservation_witness :
    save_events 100 ⟨[⟨1, "V", none⟩],
        [⟨5, 1, ⟨2025, 7, 4⟩, none, "A", "u", none, true⟩], 6⟩
        [⟨"V", ⟨2025, 7, 4⟩, some (20, 0), "A", "u", some "$10", false⟩]
      = Except.ok (⟨[⟨1, "V", some 100⟩],
          [⟨5, 1, ⟨2025, 7, 4⟩, some (20, 0), "A", "u", some "$10", true⟩], 6⟩, 0)
    ∧ (⟨5, 1, ⟨2025, 7, 4⟩, some (20, 0), "A", "u", some "$10", true⟩ : EventRow)
        ∈ (⟨[⟨1, "V", some 100⟩],
            [⟨5, 1, ⟨2025, 7, 4⟩, some (20, 0), "A", "u", some "$10", true⟩], 6⟩
              : DBState).events :=
  ⟨by decide,
    (save_events_pin_preservation 100
        ⟨[⟨1, "V", none⟩], [⟨5, 1, ⟨2025, 7, 4⟩, none, "A", "u", none, true⟩], 6⟩
        ⟨"V", ⟨2025, 7, 4⟩, some (20, 0), "A", "u", some "$10", false⟩ []
        ⟨[⟨1, "V", some 100⟩],
          [⟨5, 1, ⟨2025, 7, 4⟩, some (20, 0), "A", "u", some "$10", true⟩], 6⟩
        0 1 (by decide) (by decide) (by decide) (by decide)).2.1
      ⟨"V", ⟨2025, 7, 4⟩, some (20, 0), "A", "u", some "$10", false⟩ (by decide)
      ⟨5, 1, ⟨2025, 7, 4⟩, none, "A", "u", none, true⟩ (by decide) (by decide)⟩

/-- Claim C2: re-running `save_events` with the identical candidate list
directly after a completed first run inserts zero new events and leaves
every stored row's pinned flag (and id) unchanged. -/
theorem save_events_idempotent
    (now now2 : Nat) (st : DBState) (evs : List Event) (st1 : DBState) (n1 : Nat)
    (h1 : save_events now st evs = Except.ok (st1, n1)) :
    ∃ st2, save_events now2 st1 evs = Except.ok (st2, 0)
      ∧ ∀ r ∈ st1.events, ∃ r' ∈ st2.events, r'.id = r.id ∧ r'.pinned = r.pinned := by
  cases evs with
  | nil =>
    simp only [save_events, Except.ok.injEq, Prod.mk.injEq] at h1
    obtain ⟨hst, hn⟩ := h1
    subst hst
    exact ⟨st, rfl, fun r hr => ⟨r, hr, rfl, rfl⟩⟩
  | cons e0 rest =>
    simp only [save_events] at h1
    split at h1
    · exact absurd h1 (by simp)
    · rename_i vid hv
      split at h1
      · exact absurd h1 (by simp)
      · rename_i hz
        simp only [Except.ok.injEq, Prod.mk.injEq] at h1
        obtain ⟨hst1, hn1⟩ := h1
        subst hst1
        have hv2 : get_venue_id
            (touchVenue (saveList vid st (e0 :: rest)).1 vid now) e0.venue = some vid := by
          rw [get_venue_id_touch]
          show ((saveList vid st (e0 :: rest)).1.venues.find?
            (fun v => v.name = e0.venue)).map (fun v => v.id) = some vid
          rw [saveList_venues]
          exact hv
        have hkeys : ∀ e ∈ (e0 :: rest),
            keyPresent vid e (touchVenue (saveList vid st (e0 :: rest)).1 vid now) := by
          intro e he
          obtain ⟨r, hr, hm⟩ := @saveList_keys_present vid (e0 :: rest) st e he
          exact ⟨r, by rw [touchVenue_events]; exact hr, hm⟩
        refine ⟨touchVenue (saveList vid
            (touchVenue (saveList vid st (e0 :: rest)).1 vid now) (e0 :: rest)).1 vid now2,
          ?_, ?_⟩
        · simp only [save_events, hv2, if_neg hz]
          rw [saveList_count_zero _ _ hkeys]
        · intro r hr
          rw [touchVenue_events] at hr
          obtain ⟨r', hr', hc⟩ := saveList_events_frame (e0 :: rest) vid
            (touchVenue (saveList vid st (e0 :: rest)).1 vid now)
            (by rw [touchVenue_events]; exact hr)
          exact ⟨r', by rw [touchVenue_events]; exact hr', hc.1, hc.2.2.2.2.2⟩

/-- Claim C2 witness: one stored venue, one candidate; the first call
inserts it (count 1), the second call applied through the theorem returns
zero inserts and preserves pinned flags. -/
theorem save_events_idempotent_witness :
    save_events 100 ⟨[⟨1, "V", none⟩], [], 1⟩
        [⟨"V", ⟨2025, 7, 4⟩, some (20, 0), "A", "u", some "$10", false⟩]
      = Except.ok (⟨[⟨1, "V", some 100⟩],
          [⟨1, 1, ⟨2025, 7, 4⟩, some (20, 0), "A", "u", some "$10", false⟩], 2⟩, 1)
    ∧ ∃ st2, save_events 200 ⟨[⟨1, "V", some 100⟩],
          [⟨1, 1, ⟨2025, 7, 4⟩, some (20, 0), "A", "u", some "$10", false⟩], 2⟩
        [⟨"V", ⟨2025, 7, 4⟩, some (20, 0), "A", "u", some "$10", false⟩]
        = Except.ok (st2, 0)
      ∧ ∀ r ∈ (⟨[⟨1, "V", some 100⟩],
          [⟨1, 1, ⟨2025, 7, 4⟩, some (20, 0), "A", "u", some "$10", false⟩], 2⟩ : DBState).events,
          ∃ r' ∈ st2.events, r'.id = r.id ∧ r'.pinned = r.pinned :=
  ⟨by decide,
    save_events_idempotent 100 200 ⟨[⟨1, "V", none⟩], [], 1⟩
      [⟨"V", ⟨2025, 7, 4⟩, some (20, 0), "A", "u", some "$10", false⟩]
      ⟨[⟨1, "V", some 100⟩],
        [⟨1, 1, ⟨2025, 7, 4⟩, some (20, 0), "A", "u", some "$10", false⟩], 2⟩ 1
      (by decide)⟩

/-- Claim C10: `save_events` on an empty list returns 0 and leaves the
database state entirely unchanged (in particular the venue's last-scraped
timestamp is untouched and no venue lookup can fail), and the
venue-not-found error can only arise for a non-empty input list. -/
theorem save_events_empty_spec :
    (∀ (now : Nat) (st : DBState), save_events now st [] = Except.ok (st, 0))
    ∧ ∀ (now : Nat) (st : DBState) (evs : List Event) (msg : String),
        save_events now st evs = Except.error msg → evs ≠ [] := by
  refine ⟨fun now st => rfl, ?_⟩
  intro now st evs msg h hne
  subst hne
  exact absurd h (by simp [save_events])

/-- Claim C10 witness: the error-implies-nonempty implication applied to a
database with no venues, where saving one event fails. -/
theorem save_events_empty_spec_witness :
    save_events 0 ⟨[], [], 1⟩ [⟨"V", ⟨2025, 7, 4⟩, none, "A", "u", none, false⟩]
        = Except.error "Venue V not found in database"
    ∧ [(⟨"V", ⟨2025, 7, 4⟩, none, "A", "u", none, false⟩ : Event)] ≠ [] :=
  ⟨by decide,
    save_events_empty_spec.2 0 ⟨[], [], 1⟩ _ "Venue V not found in database" (by decide)⟩

end Musiclist
